import Mathlib

/-!
# Verification of the Nishizumi IBT overlay cue engine

Shallow embedding of the analytical core of `nishizumi_ibt_overlay.py`:
the interpolated reference lap (`ReferenceLap._build_events`,
`ReferenceLap.ref_at_pct` with `bisect.bisect_left`), the position
unwrapper (`NishizumiApp._update_live_unwrapped`), the staged cue
scheduler (`AudioCues.update`, `AudioCues._handle_stage`,
`AudioCues._approach_distances`), and the cue playback queue
(`AudioCues._play_pattern`, `AudioCues._clear_audio_queue`,
`AudioCues._pattern_for`).

Python floats are embedded as exact rationals (`ℚ`); float literals such
as `0.5`, `0.6`, `1.2`, `0.02`, `0.01`, `0.001` become the rationals
`1/2`, `3/5`, `6/5`, `1/50`, `1/100`, `1/1000`.  Python's float `%` with
a positive modulus is floor-based, embedded as `ratMod`.  `int(x)` on a
nonnegative product of nonnegative integers with `0.6` is embedded as
the rational floor (for every concrete duration appearing in the tone
tables the two agree).
-/

/-- Python float `x % m` (floor-based remainder, as used on
`(event.dist_m - current_dist_m) % track_len_m`). -/
def ratMod (x m : ℚ) : ℚ := x - m * ((⌊x / m⌋ : ℤ) : ℚ)

/-- The three reference-event kinds produced by `ReferenceLap._build_events`. -/
inductive EventKind where
  | brake
  | lift
  | power
deriving DecidableEq, Repr

/-- The three cue stages of `AudioCues._handle_stage` (`"a"`, `"b"`, `"c"`). -/
inductive Stage where
  | a
  | b
  | c
deriving DecidableEq, Repr

/-- A tone: `(frequency, duration_ms, gap_ms)`. -/
abbrev Tone := ℕ × ℕ × ℕ

/-- `AudioCues._pattern_for`: the kind- and stage-specific tone tables. -/
def pattern_for (kind : EventKind) (stage : Stage) : List Tone :=
  match kind with
  | EventKind.lift =>
    match stage with
    | Stage.a => [(520, 80, 0)]
    | Stage.b => [(700, 110, 0)]
    | Stage.c => [(980, 190, 0)]
  | EventKind.power =>
    match stage with
    | Stage.a => [(640, 80, 0)]
    | Stage.b => [(860, 110, 0)]
    | Stage.c => [(1200, 190, 0)]
  | EventKind.brake =>
    match stage with
    | Stage.a => [(560, 90, 0)]
    | Stage.b => [(820, 130, 0)]
    | Stage.c => [(1300, 700, 0)]

/-- The quiet-mode scaling loop inside `AudioCues._play_pattern`:
`(freq, max(40, int(duration * 0.6)), int(gap * 0.6))`.
`int(n * 0.6)` for a nonnegative integer `n` is embedded as the floor
`n * 6 / 10` (exact for every duration/gap in the tone tables). -/
def quiet_scale (pattern : List Tone) : List Tone :=
  pattern.map (fun t => (t.1, max 40 (t.2.1 * 6 / 10), t.2.2 * 6 / 10))

/-- Total audible length of a pattern: sum of all durations and gaps. -/
def totalMs (pattern : List Tone) : ℕ :=
  (pattern.map (fun t => t.2.1 + t.2.2)).sum

/-- `AudioCues._PRIORITY_C = 0`, `_PRIORITY_B = 1`, `_PRIORITY_A = 2`
(via `priority_map` in `_play_pattern`; lower number = higher priority). -/
def priorityOf (stage : Stage) : ℕ :=
  match stage with
  | Stage.c => 0
  | Stage.b => 1
  | Stage.a => 2

/-- State shared between `AudioCues._play_pattern` and the audio worker:
the pending `_audio_queue` (FIFO, modelled as a list with `put` appending
at the tail) and `_current_priority`. -/
structure PlaybackState where
  queue : List (ℕ × List Tone)
  currentPriority : Option ℕ
deriving DecidableEq, Repr

/-- `AudioCues._clear_audio_queue`: drains every pending item. -/
def clear_audio_queue (ps : PlaybackState) : PlaybackState :=
  { ps with queue := [] }

/-- `AudioCues._play_pattern` on the `winsound` (queue) path: optional
quiet scaling, stage→priority mapping, and for priority ≤ `_PRIORITY_B`
a full queue flush plus `_current_priority` update before the `put`. -/
def play_pattern (ps : PlaybackState) (pattern : List Tone)
    (quietMode : Bool) (stage : Stage) : PlaybackState :=
  let pattern := if quietMode then quiet_scale pattern else pattern
  let priority := priorityOf stage
  if priority ≤ 1 then
    let ps := clear_audio_queue ps
    let ps := { ps with currentPriority := some priority }
    { ps with queue := ps.queue ++ [(priority, pattern)] }
  else
    { ps with queue := ps.queue ++ [(priority, pattern)] }

/-- Python's binary `max` on rationals, written so that it evaluates by
kernel reduction (the `Max ℚ` instance does not). -/
def pymax (a b : ℚ) : ℚ := if a ≤ b then b else a

/-- `DEFAULT_APPROACH_SPEED_MPS = 25.0`. -/
def DEFAULT_APPROACH_SPEED_MPS : ℚ := 25

/-- `AudioCues._approach_distances`: translate approach lead times into
distances.  `speed_mps if speed_mps and speed_mps > 0 else DEFAULT` (a
`None`, zero or negative speed falls back to the default). -/
def approach_distances (speedMps : Option ℚ) (approachAs approachBs : ℚ) :
    ℚ × ℚ :=
  let speed :=
    match speedMps with
    | some s => if 0 < s then s else DEFAULT_APPROACH_SPEED_MPS
    | none => DEFAULT_APPROACH_SPEED_MPS
  let approachAm := pymax 1 (speed * approachAs)
  let approachBm := pymax (1/2) (speed * approachBs)
  let approachBm :=
    if approachAm ≤ approachBm then pymax (1/2) (approachAm * (1/2))
    else approachBm
  (approachAm, approachBm)

/-- Per-event stage flags (`AudioCues._stage_state[idx]`,
the dict `{"a": False, "b": False, "c": False}`). -/
structure StageFlags where
  a : Bool := false
  b : Bool := false
  c : Bool := false
deriving DecidableEq, Repr

/-- Projection of a stage flag. -/
def flagOf (s : Stage) (flags : StageFlags) : Bool :=
  match s with
  | Stage.a => flags.a
  | Stage.b => flags.b
  | Stage.c => flags.c

/-- The `crossed(threshold)` predicate of `AudioCues._handle_stage`:
cold start (`last_distance is None`) triggers at `distance <= threshold`;
otherwise a forward crossing `last_distance > threshold >= distance`. -/
def crossed (lastDistance : Option ℚ) (distance threshold : ℚ) : Bool :=
  match lastDistance with
  | none => decide (distance ≤ threshold)
  | some lastDist => decide (threshold < lastDist) && decide (distance ≤ threshold)

/-- `AudioCues._handle_stage` for one event.  Returns the updated flags
and the list of cues played this call, each tagged with whether it came
from the `force_c` path.  The Python body runs `trigger("a")`,
`trigger("b")`, `trigger("c")` sequentially, but `trigger(s)` reads and
writes only flag `s`, so the sequential updates are equivalent to this
simultaneous form. -/
def handleStage (flags : StageFlags) (distance : ℚ) (lastDistance : Option ℚ)
    (approachA approachB finalCueOffsetM : ℚ) (pctMode forceC : Bool) :
    StageFlags × List (Stage × Bool) :=
  if forceC then
    if flags.c then (flags, [])
    else ({ flags with c := true }, [(Stage.c, true)])
  else
    let finalThreshold := if pctMode then (1 : ℚ)/1000 else pymax 0 finalCueOffsetM
    let fa := crossed lastDistance distance approachA && !flags.a
    let fb := crossed lastDistance distance approachB && !flags.b
    let fc := crossed lastDistance distance finalThreshold && !flags.c
    ({ a := flags.a || fa, b := flags.b || fb, c := flags.c || fc },
      (if fa then [(Stage.a, false)] else []) ++
      (if fb then [(Stage.b, false)] else []) ++
      (if fc then [(Stage.c, false)] else []))

/-- A reference event (`RefEvent` dataclass). -/
structure RefEvent where
  kind : EventKind
  lapPct : ℚ
  distM : Option ℚ := none
deriving DecidableEq, Repr

/-- The per-call configuration of `AudioCues.update`, specialised to a
single tracked event.  In the Python loop each event index `idx` has its
own `_stage_state[idx]` dict and `_last_dist_to_event[idx]` entry and
never touches another index's entries, so distinct events evolve
independently and a single-event model is exact. -/
structure CueConfig where
  trackLenM : Option ℚ
  event : RefEvent
  approachAs : ℚ
  approachBs : ℚ
  finalCueOffsetM : ℚ
  enableBrake : Bool := true
  enableLift : Bool := true
  enablePower : Bool := true
deriving DecidableEq, Repr

/-- The per-kind enable flags of `AudioCues.update` (`continue` on a
disabled kind). -/
def enabledFor (cfg : CueConfig) (kind : EventKind) : Bool :=
  match kind with
  | EventKind.brake => cfg.enableBrake
  | EventKind.lift => cfg.enableLift
  | EventKind.power => cfg.enablePower

/-- The mutable scheduler state of `AudioCues` relevant to one event:
`_stage_state[idx]`, `_last_dist_to_event[idx]`, `_last_lap_pct`,
`_lap_id`. -/
structure CueState where
  flags : StageFlags := {}
  lastDist : Option ℚ := none
  lastLapPct : Option ℚ := none
  lapId : ℕ := 0
deriving DecidableEq, Repr

/-- One scheduler tick's live inputs: `lap_pct` and `speed_mps`. -/
structure Tick where
  lapPct : ℚ
  speedMps : Option ℚ := none
deriving DecidableEq, Repr

/-- The lap-rollover prologue of `AudioCues.update`: if the new
lap-fraction is below the previous one by more than 0.5, bump `_lap_id`
and clear `_stage_state` and `_last_dist_to_event`; then record
`_last_lap_pct = lap_pct` unconditionally. -/
def rolloverStep (st : CueState) (lapPct : ℚ) : CueState :=
  match st.lastLapPct with
  | some lastLapPct =>
    if lapPct < lastLapPct - 1/2 then
      { flags := {}, lastDist := none, lastLapPct := some lapPct,
        lapId := st.lapId + 1 }
    else { st with lastLapPct := some lapPct }
  | none => { st with lastLapPct := some lapPct }

/-- The staging of one tick for one event, shared by both modes of
`AudioCues.update`: the ordinary `_handle_stage` call, then the
forced-C re-check `last_dist <= approach_b and dist_to_event >
last_dist` (using the distance recorded before this tick), in source
order. -/
def stagePair (flags : StageFlags) (dist : ℚ) (lastDist : Option ℚ)
    (approachA approachB finalCueOffsetM : ℚ) (pctMode : Bool) :
    StageFlags × List (Stage × Bool) :=
  let r1 := handleStage flags dist lastDist approachA approachB
    finalCueOffsetM pctMode false
  let r2 :=
    match lastDist with
    | some lastD =>
      if lastD ≤ approachB ∧ lastD < dist then
        handleStage r1.1 0 lastDist approachA approachB
          finalCueOffsetM pctMode true
      else (r1.1, [])
    | none => (r1.1, [])
  (r2.1, r1.2 ++ r2.2)

/-- The fraction-mode branch of `AudioCues.update` (track length unknown
or ≤ 1): fixed thresholds `approach_a_pct = 0.02`, `approach_b_pct =
0.01`, `pct_mode=True`, with the forced-C re-check. -/
def fracCore (cfg : CueConfig) (st : CueState) (t : Tick) :
    CueState × List (Stage × Bool) :=
  if enabledFor cfg cfg.event.kind then
    let deltaPct := ratMod (cfg.event.lapPct - t.lapPct) 1
    let r := stagePair st.flags deltaPct st.lastDist (1/50) (1/100)
      cfg.finalCueOffsetM true
    ({ st with flags := r.1, lastDist := some deltaPct }, r.2)
  else (st, [])

/-- The body of `AudioCues.update` after the rollover prologue, for one
event.  Distance mode when `track_len_m and track_len_m > 1.0` (a `None`
or non-positive length is falsy, hence fraction mode): compute
`dist_to_event = (event.dist_m - lap_pct * track_len_m) % track_len_m`,
run `_handle_stage`, then the forced-C re-check
(`last_dist <= approach_b_m and dist_to_event > last_dist`), then record
`_last_dist_to_event[idx] = dist_to_event`.  An event with `dist_m is
None` or a disabled kind is skipped (`continue`). -/
def audioCore (cfg : CueConfig) (st : CueState) (t : Tick) :
    CueState × List (Stage × Bool) :=
  match cfg.trackLenM with
  | some trackLen =>
    if 1 < trackLen then
      match cfg.event.distM with
      | some eventDist =>
        if enabledFor cfg cfg.event.kind then
          let ab := approach_distances t.speedMps cfg.approachAs cfg.approachBs
          let currentDistM := t.lapPct * trackLen
          let distToEvent := ratMod (eventDist - currentDistM) trackLen
          let r := stagePair st.flags distToEvent st.lastDist ab.1 ab.2
            cfg.finalCueOffsetM false
          ({ st with flags := r.1, lastDist := some distToEvent }, r.2)
        else (st, [])
      | none => (st, [])
    else fracCore cfg st t
  | none => fracCore cfg st t

/-- One full `AudioCues.update` tick for one event: rollover prologue
followed by the staging body. -/
def audioUpdate (cfg : CueConfig) (st : CueState) (t : Tick) :
    CueState × List (Stage × Bool) :=
  audioCore cfg (rolloverStep st t.lapPct) t

/-- A sequence of scheduler ticks, accumulating all cues fired. -/
def audioRun (cfg : CueConfig) : CueState → List Tick → CueState × List (Stage × Bool)
  | st, [] => (st, [])
  | st, t :: ts =>
    let r := audioUpdate cfg st t
    let r2 := audioRun cfg r.1 ts
    (r2.1, r.2 ++ r2.2)

/-- No tick of the list triggers the lap-rollover branch, starting from
a given recorded `_last_lap_pct`. -/
def noWrapB : Option ℚ → List Tick → Bool
  | _, [] => true
  | none, t :: ts => noWrapB (some t.lapPct) ts
  | some p, t :: ts => !(decide (t.lapPct < p - 1/2)) && noWrapB (some t.lapPct) ts

/-- How many cues of stage `s` appear in a fire list. -/
def countFires (s : Stage) (fires : List (Stage × Bool)) : ℕ :=
  (fires.filter (fun f => f.1 == s)).length

/-- Live position state of `NishizumiApp` (`last_live_lap_pct`,
`live_unwrapped_m`). -/
structure LiveState where
  lastLiveLapPct : Option ℚ := none
  liveUnwrappedM : Option ℚ := none
deriving DecidableEq, Repr

/-- `NishizumiApp._update_live_unwrapped`: seed on first observation,
then accumulate `delta_pct * track_len_m`, adding 1.0 to a delta below
-0.5 (lap completion). -/
def update_live_unwrapped (st : LiveState) (lapPct trackLenM : ℚ) :
    LiveState × Option ℚ :=
  if trackLenM ≤ 0 then (st, none)
  else
    match st.lastLiveLapPct, st.liveUnwrappedM with
    | some lastPct, some unwrapped =>
      let deltaPct := lapPct - lastPct
      let deltaPct := if deltaPct < -(1/2) then deltaPct + 1 else deltaPct
      let unwrapped := unwrapped + deltaPct * trackLenM
      ({ lastLiveLapPct := some lapPct, liveUnwrappedM := some unwrapped },
        some unwrapped)
    | _, _ =>
      let seeded := lapPct * trackLenM
      ({ lastLiveLapPct := some lapPct, liveUnwrappedM := some seeded },
        some seeded)

/-- Feed a sequence of lap fractions to the position unwrapper. -/
def liveRun (trackLenM : ℚ) : LiveState → List ℚ → LiveState
  | st, [] => st
  | st, p :: ps => liveRun trackLenM (update_live_unwrapped st p trackLenM).1 ps

/-- CPython's `bisect.bisect_left` inner loop:
`while lo < hi: mid = (lo+hi)//2; if a[mid] < x: lo = mid+1 else hi = mid`. -/
def bisectLoop (a : List ℚ) (x : ℚ) (lo hi : ℕ) : ℕ :=
  if h : lo < hi then
    let mid := (lo + hi) / 2
    if a.getD mid 0 < x then bisectLoop a x (mid + 1) hi
    else bisectLoop a x lo mid
  else lo
termination_by hi - lo
decreasing_by
  · omega
  · omega

/-- `bisect.bisect_left(a, x)` over the whole list. -/
def bisect_left (a : List ℚ) (x : ℚ) : ℕ := bisectLoop a x 0 a.length

/-- `ReferenceLap.ref_at_pct`: clamp outside the sample range, guard
equal bracketing samples, otherwise linear interpolation.  `data[-1]`
is the last element. -/
def ref_at_pct (lapPct data : List ℚ) (pct : ℚ) : ℚ :=
  if lapPct.isEmpty then 0
  else
    let idx := bisect_left lapPct pct
    if idx = 0 then data.getD 0 0
    else if lapPct.length ≤ idx then data.getD (data.length - 1) 0
    else
      let before := lapPct.getD (idx - 1) 0
      let after := lapPct.getD idx 0
      if after = before then data.getD idx 0
      else
        let ratio := (pct - before) / (after - before)
        data.getD (idx - 1) 0 + (data.getD idx 0 - data.getD (idx - 1) 0) * ratio

/-- Scan state of `ReferenceLap._build_events`. -/
structure BuildState where
  events : List (EventKind × ℚ) := []
  brakePoints : List ℚ := []
  inBrake : Bool := false
  inLift : Bool := false
deriving DecidableEq, Repr

/-- One iteration (index `i`, `1 ≤ i < len`) of the
`ReferenceLap._build_events` scan: brake onset, brake release at half
the threshold, lift onset, lift release at 1.2× the threshold, power-on
recovery. -/
def buildStep (brakeTh liftTh powerTh : ℚ) (lapPct throttle brake : List ℚ)
    (st : BuildState) (i : ℕ) : BuildState :=
  let brakeVal := brake.getD i 0
  let throttleVal := throttle.getD i 0
  let prevBrake := brake.getD (i - 1) 0
  let prevThrottle := throttle.getD (i - 1) 0
  let st :=
    if !st.inBrake && decide (prevBrake < brakeTh) && decide (brakeTh ≤ brakeVal) then
      { st with events := st.events ++ [(EventKind.brake, lapPct.getD i 0)],
                brakePoints := st.brakePoints ++ [lapPct.getD i 0],
                inBrake := true, inLift := false }
    else st
  let st :=
    if st.inBrake && decide (brakeVal < brakeTh * (1/2)) then
      { st with inBrake := false }
    else st
  let st :=
    if !st.inBrake && !st.inLift && decide (liftTh ≤ prevThrottle) &&
        decide (throttleVal < liftTh) && decide (brakeVal < brakeTh) then
      { st with events := st.events ++ [(EventKind.lift, lapPct.getD i 0)],
                inLift := true }
    else st
  let st :=
    if st.inLift && decide (liftTh * (6/5) < throttleVal) then
      { st with inLift := false }
    else st
  let st :=
    if (st.inBrake || st.inLift) && decide (prevThrottle < powerTh) &&
        decide (powerTh ≤ throttleVal) then
      { st with events := st.events ++ [(EventKind.power, lapPct.getD i 0)] }
    else st
  st

/-- `ReferenceLap._build_events`: the forward scan `for i in
range(1, len(lap_pct))`, then `brake_points.sort()` (ascending). -/
def build_events (brakeTh liftTh powerTh : ℚ) (lapPct throttle brake : List ℚ) :
    List (EventKind × ℚ) × List ℚ :=
  let st := ((List.range lapPct.length).drop 1).foldl
    (buildStep brakeTh liftTh powerTh lapPct throttle brake) {}
  (st.events, st.brakePoints.mergeSort (fun x y => decide (x ≤ y)))

/-- One if a stage's cue can still fire this lap (its flag is unset),
zero otherwise; the potential consumed by firing. -/
def potS (s : Stage) (flags : StageFlags) : ℕ :=
  if flagOf s flags then 0 else 1

theorem pymax_eq_max (a b : ℚ) : pymax a b = max a b := by
  simp [pymax, max_def]

/-- `approach_B_m < approach_A_m` holds for every input of
`AudioCues._approach_distances`. -/
theorem approach_b_lt_a (speedMps : Option ℚ) (aS bS : ℚ) :
    (approach_distances speedMps aS bS).2 < (approach_distances speedMps aS bS).1 := by
  unfold approach_distances
  set speed : ℚ := match speedMps with
    | some s => if 0 < s then s else DEFAULT_APPROACH_SPEED_MPS
    | none => DEFAULT_APPROACH_SPEED_MPS with hspeed
  simp only [pymax_eq_max]
  set A : ℚ := max 1 (speed * aS) with hA
  have hA1 : (1 : ℚ) ≤ A := le_max_left _ _
  by_cases h : A ≤ max (1/2) (speed * bS)
  · simp only [h, if_true]
    have h2 : A * (1/2) < A := by linarith
    have h1 : (1:ℚ)/2 < A := by linarith
    exact max_lt h1 h2
  · simp only [h, if_false]
    exact lt_of_not_le h

/-- C9: for every speed input (absent or non-positive speed falling back
to the 25 m/s default) and every pair of lead times,
`approach_A_m = max(1.0, speed * leadA_s)`; whenever the raw
`max(0.5, speed * leadB_s)` would reach `approach_A_m`, B is shrunk to
`max(0.5, approach_A_m * 0.5)`; and the returned pair always satisfies
`approach_B_m < approach_A_m`. -/
theorem c9_approach_distances (speedMps : Option ℚ) (aS bS s : ℚ) :
    (speedMps = none → approach_distances speedMps aS bS =
      approach_distances (some DEFAULT_APPROACH_SPEED_MPS) aS bS)
    ∧ (s ≤ 0 → approach_distances (some s) aS bS =
      approach_distances (some DEFAULT_APPROACH_SPEED_MPS) aS bS)
    ∧ (0 < s → (approach_distances (some s) aS bS).1 = max 1 (s * aS))
    ∧ (0 < s → max 1 (s * aS) ≤ max (1/2) (s * bS) →
      (approach_distances (some s) aS bS).2 = max (1/2) (max 1 (s * aS) * (1/2)))
    ∧ (0 < s → ¬ max 1 (s * aS) ≤ max (1/2) (s * bS) →
      (approach_distances (some s) aS bS).2 = max (1/2) (s * bS))
    ∧ (approach_distances speedMps aS bS).2 < (approach_distances speedMps aS bS).1 := by
  refine ⟨?_, ?_, ?_, ?_, ?_, approach_b_lt_a speedMps aS bS⟩
  · rintro rfl
    simp [approach_distances, DEFAULT_APPROACH_SPEED_MPS]
  · intro hs
    have : ¬ (0 < s) := by linarith
    simp [approach_distances, this, DEFAULT_APPROACH_SPEED_MPS]
  · intro hs
    simp [approach_distances, hs, pymax_eq_max]
  · intro hs hle
    simp only [approach_distances, pymax_eq_max, if_pos hs]
    rw [if_pos hle]
  · intro hs hle
    simp only [approach_distances, pymax_eq_max, if_pos hs]
    rw [if_neg hle]

/-- C9 witness: the theorem applied at speed 10 m/s, lead times 1 s and
2 s (a misconfigured pair where B would reach A and is shrunk). -/
theorem c9_witness :
    ((10 : ℚ) ≤ 0 → approach_distances (some 10) 1 2 =
      approach_distances (some DEFAULT_APPROACH_SPEED_MPS) 1 2)
    ∧ (approach_distances (some 10) 1 2).2 < (approach_distances (some 10) 1 2).1 :=
  ⟨(c9_approach_distances (some 10) 1 2 10).2.1,
   (c9_approach_distances (some 10) 1 2 10).2.2.2.2.2⟩

/-- C1 counterexample: the claim says only pending items of strictly
lower priority are removed, and items of equal or higher priority
remain.  But `_play_pattern` flushes the whole queue for any priority ≤
`_PRIORITY_B`: enqueuing a priority-1 (B) cue while a priority-0 (C)
item is pending removes the pending priority-0 item. -/
theorem c1_counterexample :
    (play_pattern { queue := [(0, pattern_for EventKind.brake Stage.c)], currentPriority := none }
      (pattern_for EventKind.brake Stage.b) false Stage.b).queue =
      [(1, pattern_for EventKind.brake Stage.b)]
    ∧ ¬ (0, pattern_for EventKind.brake Stage.c) ∈
      (play_pattern { queue := [(0, pattern_for EventKind.brake Stage.c)], currentPriority := none }
        (pattern_for EventKind.brake Stage.b) false Stage.b).queue := by
  decide

/-- C1 amended: when a cue pattern with priority B or C (numeric
priority ≤ 1) is handed to playback, the entire pending queue is
flushed — items of every priority, lower, equal or higher — before the
new item is enqueued; a priority-2 (A) cue removes nothing and is
appended at the tail.  In particular, enqueuing a priority-0 cue while
a priority-2 cue is queued removes the priority-2 item, and enqueuing a
priority-2 cue while a priority-0 item is queued leaves the priority-0
item untouched and ordered first. -/
theorem c1_amended (ps : PlaybackState) (pattern : List Tone)
    (quietMode : Bool) (stage : Stage) :
    (priorityOf stage ≤ 1 →
      (play_pattern ps pattern quietMode stage).queue =
        [(priorityOf stage, if quietMode then quiet_scale pattern else pattern)])
    ∧ (priorityOf stage = 2 →
      (play_pattern ps pattern quietMode stage).queue =
        ps.queue ++ [(2, if quietMode then quiet_scale pattern else pattern)])
    ∧ (play_pattern { queue := [(2, pattern_for EventKind.brake Stage.a)], currentPriority := none }
        (pattern_for EventKind.brake Stage.c) false Stage.c).queue =
        [(0, pattern_for EventKind.brake Stage.c)]
    ∧ (play_pattern { queue := [(0, pattern_for EventKind.brake Stage.c)], currentPriority := none }
        (pattern_for EventKind.brake Stage.a) false Stage.a).queue =
        [(0, pattern_for EventKind.brake Stage.c), (2, pattern_for EventKind.brake Stage.a)] := by
  refine ⟨?_, ?_, by decide, by decide⟩
  · intro h
    cases stage <;> simp_all [play_pattern, priorityOf, clear_audio_queue]
  · intro h
    cases stage <;> simp_all [play_pattern, priorityOf, clear_audio_queue]

/-- C1 witness: the amended theorem applied to a priority-0 (stage C)
cue enqueued over a queued priority-2 item. -/
theorem c1_witness :
    (play_pattern { queue := [(2, pattern_for EventKind.brake Stage.a)], currentPriority := none }
      (pattern_for EventKind.brake Stage.c) false Stage.c).queue =
      [(0, pattern_for EventKind.brake Stage.c)] :=
  (c1_amended { queue := [(2, pattern_for EventKind.brake Stage.a)], currentPriority := none }
    (pattern_for EventKind.brake Stage.c) false Stage.c).1 (by decide)

/-- C2 counterexample: the claim says quiet mode strictly reduces every
duration and every gap of a played pattern.  Every gap in the tone
tables is 0, and quiet mode maps gap 0 to `int(0 * 0.6) = 0`, which is
not a strict reduction: the brake stage-A pattern keeps its gap
unchanged. -/
theorem c2_counterexample :
    quiet_scale (pattern_for EventKind.brake Stage.a) = [(560, 54, 0)]
    ∧ ¬ ((quiet_scale (pattern_for EventKind.brake Stage.a)).getD 0 (0, 0, 0)).2.2 <
      ((pattern_for EventKind.brake Stage.a).getD 0 (0, 0, 0)).2.2 := by
  decide

/-- C2 amended: for every tone pattern of the cue engine's tone tables
played with quiet mode enabled, the quiet-mode transformation strictly
reduces every duration, keeps every frequency and every gap unchanged
(all table gaps are 0 and stay 0), and strictly reduces the total
pattern duration (sum of all durations and gaps). -/
theorem c2_amended (kind : EventKind) (stage : Stage) :
    List.Forall₂
      (fun orig scaled => scaled.1 = orig.1 ∧ scaled.2.1 < orig.2.1 ∧ scaled.2.2 = orig.2.2)
      (pattern_for kind stage) (quiet_scale (pattern_for kind stage))
    ∧ totalMs (quiet_scale (pattern_for kind stage)) < totalMs (pattern_for kind stage) := by
  cases kind <;> cases stage <;> exact ⟨by decide, by decide⟩

/-- C8: scanning brake values `[0, 0.05, 0.15, 0.3, 0.04]` (throttle
constantly 0, below the lift threshold) with `brake_th = 0.1` produces
exactly one Brake event, at the sample whose brake value is 0.15
(lap-fraction 1/5); because `in_brake` clears once brake drops below
0.05, appending a later rise back above 0.1 produces a second,
independent Brake event. -/
theorem c8_brake_events :
    build_events (1/10) (1/5) (7/10)
      [0, 1/10, 1/5, 3/10, 2/5] [0, 0, 0, 0, 0] [0, 1/20, 3/20, 3/10, 1/25]
      = ([(EventKind.brake, 1/5)], [1/5])
    ∧ build_events (1/10) (1/5) (7/10)
      [0, 1/10, 1/5, 3/10, 2/5, 1/2] [0, 0, 0, 0, 0, 0] [0, 1/20, 3/20, 3/10, 1/25, 1/5]
      = ([(EventKind.brake, 1/5), (EventKind.brake, 1/2)], [1/5, 1/2]) := by
  with_unfolding_all decide

theorem liveRun_chain (L : ℚ) (hL : 0 < L) :
    ∀ (ps : List ℚ) (p : ℚ), List.Chain (· ≤ ·) p ps →
      liveRun L { lastLiveLapPct := some p, liveUnwrappedM := some (p * L) } ps =
        { lastLiveLapPct := some (ps.getLastD p),
          liveUnwrappedM := some (ps.getLastD p * L) } := by
  intro ps
  induction ps with
  | nil => intro p _; simp [liveRun]
  | cons q ps ih =>
    intro p h
    obtain ⟨hpq, hch⟩ := List.chain_cons.mp h
    have hc : ¬ (q - p < -(1/2 : ℚ)) := by linarith
    simp only [liveRun, update_live_unwrapped, if_neg (not_le.mpr hL), if_neg hc]
    rw [show p * L + (q - p) * L = q * L by ring]
    rw [ih q hch, List.getLastD_cons]

theorem liveRun_seed (L : ℚ) (hL : 0 < L) (x : ℚ) (l : List ℚ) :
    liveRun L {} (x :: l) =
      liveRun L { lastLiveLapPct := some x, liveUnwrappedM := some (x * L) } l := by
  simp only [liveRun, update_live_unwrapped, if_neg (not_le.mpr hL)]

theorem getLastD_take_eq (x : ℚ) :
    ∀ (i : ℕ) (xs : List ℚ), i < (x :: xs).length →
      (xs.take i).getLastD x = (x :: xs).getD i 0 := by
  intro i
  induction i generalizing x with
  | zero => intro xs _; simp
  | succ k ih =>
    intro xs h
    cases xs with
    | nil => simp at h
    | cons y ys =>
      rw [List.take_succ_cons, List.getLastD_cons]
      exact ih y ys (by simpa using h)

/-- C5: with a fixed positive track length, feeding the position
unwrapper any monotonically increasing (no-wrap) lap-fraction sequence
from the unset state yields, after every tick `i`, an unwrapped
distance equal to that tick's lap-fraction times the track length
(seeded at the first sample), and therefore a non-decreasing sequence
of unwrapped distances. -/
theorem c5_unwrapped_eq (L : ℚ) (hL : 0 < L) (ps : List ℚ)
    (hmono : ps.Sorted (· ≤ ·)) (i : ℕ) (hi : i < ps.length) :
    (liveRun L {} (ps.take (i+1))).liveUnwrappedM = some (ps.get ⟨i, hi⟩ * L)
    ∧ ∀ (j : ℕ) (hj : j < ps.length), i ≤ j →
        ps.get ⟨i, hi⟩ * L ≤ ps.get ⟨j, hj⟩ * L := by
  constructor
  · cases ps with
    | nil => simp at hi
    | cons x xs =>
      rw [List.take_succ_cons, liveRun_seed L hL]
      have hch : List.Chain (· ≤ ·) x (xs.take i) := by
        have hsub : List.Sublist (x :: xs.take i) (x :: xs) :=
          List.Sublist.cons₂ x (List.take_sublist i xs)
        exact List.chain_iff_pairwise.mpr (List.Pairwise.sublist hsub hmono)
      rw [liveRun_chain L hL (xs.take i) x hch]
      rw [getLastD_take_eq x i xs hi]
      rw [List.getD_eq_get (x :: xs) 0 hi]
  · intro j hj hij
    have hp : ps.get ⟨i, hi⟩ ≤ ps.get ⟨j, hj⟩ := by
      rcases Nat.lt_or_ge i j with hlt | hge
      · exact List.pairwise_iff_get.mp hmono ⟨i, hi⟩ ⟨j, hj⟩ hlt
      · have : i = j := le_antisymm hij hge
        subst this
        exact le_refl _
    exact mul_le_mul_of_nonneg_right hp (le_of_lt hL)

/-- C5 witness: the theorem applied to track length 100 and the
increasing sequence `[1/10, 1/5, 1/2]` at tick 1. -/
theorem c5_witness :
    (liveRun 100 {} ([(1:ℚ)/10, 1/5, 1/2].take 2)).liveUnwrappedM =
      some ([(1:ℚ)/10, 1/5, 1/2].get ⟨1, by decide⟩ * 100)
    ∧ [(1:ℚ)/10, 1/5, 1/2].get ⟨1, by decide⟩ * 100 ≤
      [(1:ℚ)/10, 1/5, 1/2].get ⟨2, by decide⟩ * 100 := by
  have h := c5_unwrapped_eq 100 (by norm_num) [(1:ℚ)/10, 1/5, 1/2]
    (by with_unfolding_all decide) 1 (by decide)
  exact ⟨h.1, h.2 2 (by decide) (by decide)⟩

theorem countFires_append (s : Stage) (l1 l2 : List (Stage × Bool)) :
    countFires s (l1 ++ l2) = countFires s l1 + countFires s l2 := by
  simp [countFires, List.filter_append]

theorem handleStage_mono (s : Stage) (flags : StageFlags) (d : ℚ)
    (last : Option ℚ) (aT bT f : ℚ) (pm fc : Bool)
    (h : flagOf s flags = true) :
    flagOf s (handleStage flags d last aT bT f pm fc).1 = true := by
  cases fc <;> cases s <;> by_cases hc : flags.c <;>
    simp_all [handleStage, flagOf]

theorem handleStage_le (s : Stage) (flags : StageFlags) (d : ℚ)
    (last : Option ℚ) (aT bT f : ℚ) (pm fc : Bool) :
    countFires s (handleStage flags d last aT bT f pm fc).2 +
      potS s (handleStage flags d last aT bT f pm fc).1 ≤ potS s flags := by
  cases fc with
  | true =>
    by_cases hc : flags.c <;> cases s <;>
      simp [handleStage, countFires, potS, flagOf, hc]
  | false =>
    simp only [handleStage]
    generalize (if pm = true then (1:ℚ)/1000 else pymax 0 f) = fT
    rcases flags with ⟨fla, flb, flc⟩
    cases s <;> cases fla <;> cases flb <;> cases flc <;>
      cases hA : crossed last d aT <;> cases hB : crossed last d bT <;>
      cases hC : crossed last d fT <;>
      simp [countFires, potS, flagOf, hA, hB, hC]

theorem stagePair_mono (s : Stage) (flags : StageFlags) (d : ℚ)
    (last : Option ℚ) (aT bT f : ℚ) (pm : Bool)
    (h : flagOf s flags = true) :
    flagOf s (stagePair flags d last aT bT f pm).1 = true := by
  unfold stagePair
  cases last with
  | none =>
    dsimp only
    exact handleStage_mono _ _ _ _ _ _ _ _ _ h
  | some l =>
    dsimp only
    by_cases hcond : l ≤ bT ∧ l < d
    · rw [if_pos hcond]
      exact handleStage_mono _ _ _ _ _ _ _ _ _
        (handleStage_mono _ _ _ _ _ _ _ _ _ h)
    · rw [if_neg hcond]
      exact handleStage_mono _ _ _ _ _ _ _ _ _ h

theorem stagePair_le (s : Stage) (flags : StageFlags) (d : ℚ)
    (last : Option ℚ) (aT bT f : ℚ) (pm : Bool) :
    countFires s (stagePair flags d last aT bT f pm).2 +
      potS s (stagePair flags d last aT bT f pm).1 ≤ potS s flags := by
  unfold stagePair
  have h1 := handleStage_le s flags d last aT bT f pm false
  cases last with
  | none =>
    dsimp only
    simpa [countFires_append] using h1
  | some l =>
    dsimp only
    by_cases hcond : l ≤ bT ∧ l < d
    · rw [if_pos hcond]
      have h2 := handleStage_le s
        (handleStage flags d (some l) aT bT f pm false).1 0 (some l) aT bT f pm true
      rw [countFires_append]
      omega
    · rw [if_neg hcond]
      simpa [countFires_append] using h1

theorem audioCore_shape (cfg : CueConfig) (st : CueState) (t : Tick) :
    (∃ d aT bT pm,
      audioCore cfg st t =
        ({ st with flags := (stagePair st.flags d st.lastDist aT bT cfg.finalCueOffsetM pm).1,
                   lastDist := some d },
         (stagePair st.flags d st.lastDist aT bT cfg.finalCueOffsetM pm).2))
    ∨ audioCore cfg st t = (st, []) := by
  unfold audioCore fracCore
  rcases hT : cfg.trackLenM with _ | L
  · by_cases hEn : enabledFor cfg cfg.event.kind = true
    · left
      exact ⟨_, _, _, _, by rw [if_pos hEn]⟩
    · right
      rw [if_neg hEn]
  · dsimp only
    by_cases hL : (1:ℚ) < L
    · rw [if_pos hL]
      rcases hD : cfg.event.distM with _ | ed
      · right; rfl
      · dsimp only
        by_cases hEn : enabledFor cfg cfg.event.kind = true
        · left
          exact ⟨_, _, _, _, by rw [if_pos hEn]⟩
        · right
          rw [if_neg hEn]
    · rw [if_neg hL]
      by_cases hEn : enabledFor cfg cfg.event.kind = true
      · left
        exact ⟨_, _, _, _, by rw [if_pos hEn]⟩
      · right
        rw [if_neg hEn]

theorem audioCore_le (cfg : CueConfig) (st : CueState) (t : Tick) (s : Stage) :
    countFires s (audioCore cfg st t).2 + potS s (audioCore cfg st t).1.flags ≤
      potS s st.flags := by
  rcases audioCore_shape cfg st t with ⟨d, aT, bT, pm, heq⟩ | heq <;> rw [heq]
  · exact stagePair_le s st.flags d st.lastDist aT bT cfg.finalCueOffsetM pm
  · simp [countFires]

theorem audioCore_mono (cfg : CueConfig) (st : CueState) (t : Tick) (s : Stage)
    (h : flagOf s st.flags = true) :
    flagOf s (audioCore cfg st t).1.flags = true := by
  rcases audioCore_shape cfg st t with ⟨d, aT, bT, pm, heq⟩ | heq <;> rw [heq]
  · exact stagePair_mono s st.flags d st.lastDist aT bT cfg.finalCueOffsetM pm h
  · exact h

theorem audioCore_lapId (cfg : CueConfig) (st : CueState) (t : Tick) :
    (audioCore cfg st t).1.lapId = st.lapId := by
  rcases audioCore_shape cfg st t with ⟨d, aT, bT, pm, heq⟩ | heq <;> rw [heq]

theorem audioCore_lastLapPct (cfg : CueConfig) (st : CueState) (t : Tick) :
    (audioCore cfg st t).1.lastLapPct = st.lastLapPct := by
  rcases audioCore_shape cfg st t with ⟨d, aT, bT, pm, heq⟩ | heq <;> rw [heq]

theorem rolloverStep_none (st : CueState) (lapPct : ℚ)
    (h : st.lastLapPct = none) :
    rolloverStep st lapPct = { st with lastLapPct := some lapPct } := by
  simp [rolloverStep, h]

theorem rolloverStep_noWrap (st : CueState) (lapPct p : ℚ)
    (hp : st.lastLapPct = some p) (h : ¬ lapPct < p - 1/2) :
    rolloverStep st lapPct = { st with lastLapPct := some lapPct } := by
  simp only [rolloverStep, hp]
  rw [if_neg h]

theorem rolloverStep_wrap (st : CueState) (lapPct p : ℚ)
    (hp : st.lastLapPct = some p) (h : lapPct < p - 1/2) :
    rolloverStep st lapPct =
      { flags := {}, lastDist := none, lastLapPct := some lapPct,
        lapId := st.lapId + 1 } := by
  simp only [rolloverStep, hp]
  rw [if_pos h]

theorem audioUpdate_lastLapPct (cfg : CueConfig) (st : CueState) (t : Tick) :
    (audioUpdate cfg st t).1.lastLapPct = some t.lapPct := by
  unfold audioUpdate
  rw [audioCore_lastLapPct]
  rcases hp : st.lastLapPct with _ | p
  · rw [rolloverStep_none st t.lapPct hp]
  · by_cases h : t.lapPct < p - 1/2
    · rw [rolloverStep_wrap st t.lapPct p hp h]
    · rw [rolloverStep_noWrap st t.lapPct p hp h]

theorem audioRun_le (cfg : CueConfig) (s : Stage) :
    ∀ (ts : List Tick) (st : CueState), noWrapB st.lastLapPct ts = true →
      countFires s (audioRun cfg st ts).2 + potS s (audioRun cfg st ts).1.flags ≤
        potS s st.flags := by
  intro ts
  induction ts with
  | nil => intro st _; simp [audioRun, countFires]
  | cons t ts ih =>
    intro st hnw
    have hstep : countFires s (audioUpdate cfg st t).2 +
        potS s (audioUpdate cfg st t).1.flags ≤ potS s st.flags := by
      unfold audioUpdate
      rcases hp : st.lastLapPct with _ | p
      · rw [rolloverStep_none st t.lapPct hp]
        exact audioCore_le cfg _ t s
      · have hw : ¬ t.lapPct < p - 1/2 := by
          rw [hp] at hnw
          simp only [noWrapB, Bool.and_eq_true, Bool.not_eq_true',
            decide_eq_false_iff_not] at hnw
          exact hnw.1
        rw [rolloverStep_noWrap st t.lapPct p hp hw]
        exact audioCore_le cfg _ t s
    have hrest : noWrapB (audioUpdate cfg st t).1.lastLapPct ts = true := by
      rw [audioUpdate_lastLapPct]
      rcases hp : st.lastLapPct with _ | p <;> rw [hp] at hnw <;>
        simp only [noWrapB, Bool.and_eq_true] at hnw ⊢
      · exact hnw
      · exact hnw.2
    have hih := ih (audioUpdate cfg st t).1 hrest
    simp only [audioRun, countFires_append]
    omega

/-- C4: for every tracked event and stage, the stage's cue fires at most
once per lap over any sequence of ticks with no lap rollover; stage
flags only move false→true within a lap (no rollover tick ever clears a
set flag); a rollover tick (new lap-fraction below the previous by more
than 0.5) bumps the lap counter and runs the tick's staging from fully
cleared stage state and distance cache, so all three stages can fire
again (final conjunct: a concrete post-rollover tick re-fires every
stage even though all three flags were already set). -/
theorem c4_stage_once_per_lap (cfg : CueConfig) (st : CueState) (s : Stage) :
    (∀ ts : List Tick, noWrapB st.lastLapPct ts = true →
      countFires s (audioRun cfg st ts).2 ≤ 1)
    ∧ (∀ t : Tick, ∀ p : ℚ, st.lastLapPct = some p → ¬ t.lapPct < p - 1/2 →
        flagOf s st.flags = true → flagOf s (audioUpdate cfg st t).1.flags = true)
    ∧ (∀ t : Tick, st.lastLapPct = none →
        flagOf s st.flags = true → flagOf s (audioUpdate cfg st t).1.flags = true)
    ∧ (∀ t : Tick, ∀ p : ℚ, st.lastLapPct = some p → t.lapPct < p - 1/2 →
        (audioUpdate cfg st t).1.lapId = st.lapId + 1 ∧
        audioUpdate cfg st t =
          audioCore cfg
            { flags := {}, lastDist := none,
              lastLapPct := some t.lapPct, lapId := st.lapId + 1 } t)
    ∧ (∀ s' : Stage, countFires s'
        (audioUpdate
          { trackLenM := some 100,
            event := { kind := EventKind.brake, lapPct := 1/10, distM := some 10 },
            approachAs := 2, approachBs := 1, finalCueOffsetM := 0 }
          { flags := { a := true, b := true, c := true },
            lastDist := some 5, lastLapPct := some (9/10), lapId := 3 }
          { lapPct := 1/10 }).2 = 1) := by
  refine ⟨?_, ?_, ?_, ?_, ?_⟩
  · intro ts hnw
    have h := audioRun_le cfg s ts st hnw
    have hpot : potS s st.flags ≤ 1 := by unfold potS; split <;> omega
    omega
  · intro t p hp hw h
    unfold audioUpdate
    rw [rolloverStep_noWrap st t.lapPct p hp hw]
    exact audioCore_mono cfg _ t s h
  · intro t hp h
    unfold audioUpdate
    rw [rolloverStep_none st t.lapPct hp]
    exact audioCore_mono cfg _ t s h
  · intro t p hp hw
    refine ⟨?_, ?_⟩
    · unfold audioUpdate
      rw [rolloverStep_wrap st t.lapPct p hp hw, audioCore_lapId]
    · unfold audioUpdate
      rw [rolloverStep_wrap st t.lapPct p hp hw]
  · intro s'
    cases s' <;> with_unfolding_all decide

/-- C4 witness: the at-most-once bound applied to a concrete
configuration and three consecutive ticks that all sit inside the
stage-A approach window. -/
theorem c4_witness :
    countFires Stage.a
      (audioRun
        { trackLenM := some 100,
          event := { kind := EventKind.brake, lapPct := 1/2, distM := some 50 },
          approachAs := 2, approachBs := 1, finalCueOffsetM := 0 }
        {} [{ lapPct := 1/10 }, { lapPct := 2/10 }, { lapPct := 3/10 }]).2 ≤ 1 :=
  (c4_stage_once_per_lap
    { trackLenM := some 100,
      event := { kind := EventKind.brake, lapPct := 1/2, distM := some 50 },
      approachAs := 2, approachBs := 1, finalCueOffsetM := 0 }
    {} Stage.a).1
    [{ lapPct := 1/10 }, { lapPct := 2/10 }, { lapPct := 3/10 }]
    (by with_unfolding_all decide)

/-- C6: on any tick whose lap-fraction is below the previous one by more
than 0.5 (with lap fractions in [0, 1] and a positive track length),
the scheduler's internal lap counter `_lap_id` increases by exactly 1,
and the position unwrapper's `live_unwrapped_m` moves by
`(delta + 1) * track_len` and therefore does not decrease. -/
theorem c6_wrap_tick (cfg : CueConfig) (st : CueState) (t : Tick) (p : ℚ)
    (lastP d lapPct L : ℚ) :
    (st.lastLapPct = some p → 0 ≤ p → p ≤ 1 → 0 ≤ t.lapPct → t.lapPct ≤ 1 →
      t.lapPct < p - 1/2 → (audioUpdate cfg st t).1.lapId = st.lapId + 1)
    ∧ (0 < L → 0 ≤ lastP → lastP ≤ 1 → 0 ≤ lapPct → lapPct ≤ 1 →
      lapPct < lastP - 1/2 →
      (update_live_unwrapped
        { lastLiveLapPct := some lastP, liveUnwrappedM := some d } lapPct L).2 =
        some (d + (lapPct - lastP + 1) * L) ∧
      d ≤ d + (lapPct - lastP + 1) * L) := by
  constructor
  · intro hp _ _ _ _ hw
    unfold audioUpdate
    rw [rolloverStep_wrap st t.lapPct p hp hw, audioCore_lapId]
  · intro hL h0 h1 h2 h3 hw
    have hdelta : lapPct - lastP < -(1/2 : ℚ) := by linarith
    constructor
    · simp only [update_live_unwrapped, if_neg (not_le.mpr hL), if_pos hdelta]
    · have hnn : (0 : ℚ) ≤ lapPct - lastP + 1 := by linarith
      have := mul_nonneg hnn (le_of_lt hL)
      linarith

/-- C6 witness: the theorem applied to a wrap from lap-fraction 9/10 to
1/10 on a 100 m track with 37 m already unwrapped. -/
theorem c6_witness :
    (audioUpdate
      { trackLenM := some 100,
        event := { kind := EventKind.brake, lapPct := 1/2, distM := some 50 },
        approachAs := 2, approachBs := 1, finalCueOffsetM := 0 }
      { flags := {}, lastDist := some 5, lastLapPct := some (9/10), lapId := 7 }
      { lapPct := 1/10 }).1.lapId = 8
    ∧ (update_live_unwrapped
        { lastLiveLapPct := some (9/10), liveUnwrappedM := some 37 }
        (1/10) 100).2 = some (37 + (1/10 - 9/10 + 1) * 100)
    ∧ (37 : ℚ) ≤ 37 + (1/10 - 9/10 + 1) * 100 := by
  have h := c6_wrap_tick
    { trackLenM := some 100,
      event := { kind := EventKind.brake, lapPct := 1/2, distM := some 50 },
      approachAs := 2, approachBs := 1, finalCueOffsetM := 0 }
    { flags := {}, lastDist := some 5, lastLapPct := some (9/10), lapId := 7 }
    { lapPct := 1/10 } (9/10) (9/10) 37 (1/10) 100
  have h2 := h.2 (by norm_num) (by norm_num) (by norm_num) (by norm_num)
    (by norm_num) (by norm_num)
  exact ⟨h.1 rfl (by norm_num) (by norm_num) (by norm_num) (by norm_num)
    (by norm_num), h2.1, h2.2⟩

/-- C3: in distance mode, if the previously recorded distance for an
event was ≤ `approach_B` and this tick's computed distance is strictly
larger (a skip-over past the event), and the C stage has not fired yet
this lap, then this tick emits exactly one cue: the C cue via the
forced path (tagged `true`; in particular no ordinary literal-threshold
C crossing fires, and no A or B cue fires), the C flag is set, and no
further C cue can fire on any later tick of the same lap. -/
theorem c3_forced_c (cfg : CueConfig) (st : CueState) (t : Tick)
    (L eventDist p l : ℚ)
    (hT : cfg.trackLenM = some L) (hL : 1 < L)
    (hD : cfg.event.distM = some eventDist)
    (hEn : enabledFor cfg cfg.event.kind = true)
    (hp : st.lastLapPct = some p)
    (hw : ¬ t.lapPct < p - 1/2)
    (hld : st.lastDist = some l)
    (hlb : l ≤ (approach_distances t.speedMps cfg.approachAs cfg.approachBs).2)
    (hinc : l < ratMod (eventDist - t.lapPct * L) L)
    (hc : st.flags.c = false) :
    (audioUpdate cfg st t).2 = [(Stage.c, true)]
    ∧ (audioUpdate cfg st t).1.flags.c = true
    ∧ ∀ ts : List Tick, noWrapB (some t.lapPct) ts = true →
        countFires Stage.c (audioRun cfg (audioUpdate cfg st t).1 ts).2 = 0 := by
  have hab := approach_b_lt_a t.speedMps cfg.approachAs cfg.approachBs
  have hfa : crossed (some l)
      (ratMod (eventDist - t.lapPct * L) L)
      (approach_distances t.speedMps cfg.approachAs cfg.approachBs).1 = false := by
    have h1 : ¬ (approach_distances t.speedMps cfg.approachAs cfg.approachBs).1 < l :=
      not_lt.mpr (le_of_lt (lt_of_le_of_lt hlb hab))
    simp [crossed, h1]
  have hfb : crossed (some l)
      (ratMod (eventDist - t.lapPct * L) L)
      (approach_distances t.speedMps cfg.approachAs cfg.approachBs).2 = false := by
    have h1 : ¬ (approach_distances t.speedMps cfg.approachAs cfg.approachBs).2 < l :=
      not_lt.mpr hlb
    simp [crossed, h1]
  have hfc : crossed (some l)
      (ratMod (eventDist - t.lapPct * L) L)
      (pymax 0 cfg.finalCueOffsetM) = false := by
    by_cases hft : pymax 0 cfg.finalCueOffsetM < l
    · have h2 : ¬ ratMod (eventDist - t.lapPct * L) L ≤ pymax 0 cfg.finalCueOffsetM :=
        not_le.mpr (lt_trans hft hinc)
      simp [crossed, h2]
    · simp [crossed, hft]
  have hupd : audioUpdate cfg st t =
      ({ flags := { a := st.flags.a, b := st.flags.b, c := true },
         lastDist := some (ratMod (eventDist - t.lapPct * L) L),
         lastLapPct := some t.lapPct, lapId := st.lapId },
       [(Stage.c, true)]) := by
    unfold audioUpdate
    rw [rolloverStep_noWrap st t.lapPct p hp hw]
    unfold audioCore
    rw [hT]
    try dsimp only
    rw [if_pos hL, hD]
    try dsimp only
    rw [if_pos hEn]
    try dsimp only
    rw [hld]
    unfold stagePair
    try dsimp only
    rw [if_pos ⟨hlb, hinc⟩]
    simp [handleStage, hfa, hfb, hfc, hc]
  refine ⟨by rw [hupd], by rw [hupd], ?_⟩
  intro ts hnw
  have hrun := audioRun_le cfg Stage.c ts (audioUpdate cfg st t).1
    (by rw [hupd]; exact hnw)
  have hpot : potS Stage.c (audioUpdate cfg st t).1.flags = 0 := by
    rw [hupd]
    simp [potS, flagOf]
  omega

/-- C3 witness: the forced-C theorem applied to a 100 m track, a brake
event at 50 m, previous recorded distance 10 m (≤ approach_B = 25 m)
and a tick that jumps past the event (new computed distance 90 m),
followed by one further no-rollover tick. -/
theorem c3_witness :
    (audioUpdate
      { trackLenM := some 100,
        event := { kind := EventKind.brake, lapPct := 1/2, distM := some 50 },
        approachAs := 2, approachBs := 1, finalCueOffsetM := 0 }
      { flags := {}, lastDist := some 10, lastLapPct := some (4/10), lapId := 0 }
      { lapPct := 6/10 }).2 = [(Stage.c, true)]
    ∧ (audioUpdate
      { trackLenM := some 100,
        event := { kind := EventKind.brake, lapPct := 1/2, distM := some 50 },
        approachAs := 2, approachBs := 1, finalCueOffsetM := 0 }
      { flags := {}, lastDist := some 10, lastLapPct := some (4/10), lapId := 0 }
      { lapPct := 6/10 }).1.flags.c = true
    ∧ countFires Stage.c
      (audioRun
        { trackLenM := some 100,
          event := { kind := EventKind.brake, lapPct := 1/2, distM := some 50 },
          approachAs := 2, approachBs := 1, finalCueOffsetM := 0 }
        (audioUpdate
          { trackLenM := some 100,
            event := { kind := EventKind.brake, lapPct := 1/2, distM := some 50 },
            approachAs := 2, approachBs := 1, finalCueOffsetM := 0 }
          { flags := {}, lastDist := some 10, lastLapPct := some (4/10), lapId := 0 }
          { lapPct := 6/10 }).1
        [{ lapPct := 7/10 }]).2 = 0 := by
  have h := c3_forced_c
    { trackLenM := some 100,
      event := { kind := EventKind.brake, lapPct := 1/2, distM := some 50 },
      approachAs := 2, approachBs := 1, finalCueOffsetM := 0 }
    { flags := {}, lastDist := some 10, lastLapPct := some (4/10), lapId := 0 }
    { lapPct := 6/10 } 100 50 (4/10) 10
    rfl (by norm_num) rfl rfl rfl (by norm_num) rfl
    (by with_unfolding_all decide) (by with_unfolding_all decide) rfl
  exact ⟨h.1, h.2.1, h.2.2 [{ lapPct := 7/10 }] (by with_unfolding_all decide)⟩

theorem sorted_getD_mono (a : List ℚ) (hs : a.Sorted (· ≤ ·)) (i j : ℕ)
    (hij : i ≤ j) (hj : j < a.length) : a.getD i 0 ≤ a.getD j 0 := by
  have hi : i < a.length := lt_of_le_of_lt hij hj
  rw [List.getD_eq_get a 0 hi, List.getD_eq_get a 0 hj]
  rcases eq_or_lt_of_le hij with heq | hlt
  · subst heq
    exact le_refl _
  · exact hs.rel_get_of_lt (show (⟨i, hi⟩ : Fin a.length) < ⟨j, hj⟩ from hlt)

theorem bisectLoop_spec (a : List ℚ) (x : ℚ) (hs : a.Sorted (· ≤ ·)) :
    ∀ (fuel lo hi : ℕ), hi ≤ a.length → lo ≤ hi → hi - lo ≤ fuel →
      (∀ j, j < lo → a.getD j 0 < x) →
      (∀ j, hi ≤ j → j < a.length → x ≤ a.getD j 0) →
      lo ≤ bisectLoop a x lo hi ∧ bisectLoop a x lo hi ≤ hi ∧
      (∀ j, j < bisectLoop a x lo hi → a.getD j 0 < x) ∧
      (∀ j, bisectLoop a x lo hi ≤ j → j < a.length → x ≤ a.getD j 0) := by
  intro fuel
  induction fuel with
  | zero =>
    intro lo hi hha hlo hfuel hbelow habove
    have hnl : ¬ lo < hi := by omega
    rw [bisectLoop, dif_neg hnl]
    exact ⟨le_refl _, hlo, hbelow, fun j hj hjl => habove j (by omega) hjl⟩
  | succ n ih =>
    intro lo hi hha hlo hfuel hbelow habove
    by_cases h : lo < hi
    · rw [bisectLoop, dif_pos h]
      dsimp only
      by_cases hmid : a.getD ((lo + hi) / 2) 0 < x
      · rw [if_pos hmid]
        have hmlt : (lo + hi) / 2 < hi := by omega
        have hnew : ∀ j, j < (lo + hi) / 2 + 1 → a.getD j 0 < x := by
          intro j hj
          exact lt_of_le_of_lt
            (sorted_getD_mono a hs j ((lo + hi) / 2) (by omega) (by omega)) hmid
        obtain ⟨h1, h2, h3, h4⟩ := ih ((lo + hi) / 2 + 1) hi hha (by omega)
          (by omega) hnew habove
        exact ⟨by omega, h2, h3, h4⟩
      · rw [if_neg hmid]
        have hnew : ∀ j, (lo + hi) / 2 ≤ j → j < a.length → x ≤ a.getD j 0 := by
          intro j hj hjl
          exact le_trans (not_lt.mp hmid)
            (sorted_getD_mono a hs ((lo + hi) / 2) j hj hjl)
        have hr := ih lo ((lo + hi) / 2) (by omega) (by omega) (by omega) hbelow hnew
        exact ⟨hr.1, by omega, hr.2.2.1, fun j hj hjl => hr.2.2.2 j hj hjl⟩
    · rw [bisectLoop, dif_neg h]
      exact ⟨le_refl _, hlo, hbelow, fun j hj hjl => habove j (by omega) hjl⟩

theorem bisect_left_spec (a : List ℚ) (x : ℚ) (hs : a.Sorted (· ≤ ·)) :
    bisect_left a x ≤ a.length ∧
    (∀ j, j < bisect_left a x → a.getD j 0 < x) ∧
    (∀ j, bisect_left a x ≤ j → j < a.length → x ≤ a.getD j 0) := by
  have h := bisectLoop_spec a x hs a.length 0 a.length (le_refl _) (by omega)
    (by omega) (by intro j hj; omega) (by intro j hj hjl; omega)
  exact ⟨h.2.1, h.2.2.1, h.2.2.2⟩

/-- C10: for every sorted sample series (duplicate lap-fraction values
allowed) and every query fraction, whenever `bisect.bisect_left` lands
strictly inside the list — the only case in which `ref_at_pct` divides —
the bracketing samples satisfy `before < pct ≤ after`; hence
`after - before` is strictly positive, the division is safe, and the
explicit `after == before` guard branch is unreachable. -/
theorem c10_no_division_by_zero (lapPct : List ℚ) (pct : ℚ) (hs : lapPct.Sorted (· ≤ ·))
    (h0 : 0 < bisect_left lapPct pct)
    (hn : bisect_left lapPct pct < lapPct.length) :
    lapPct.getD (bisect_left lapPct pct - 1) 0 < pct
    ∧ pct ≤ lapPct.getD (bisect_left lapPct pct) 0
    ∧ lapPct.getD (bisect_left lapPct pct - 1) 0 ≠ lapPct.getD (bisect_left lapPct pct) 0
    ∧ 0 < lapPct.getD (bisect_left lapPct pct) 0 - lapPct.getD (bisect_left lapPct pct - 1) 0 := by
  obtain ⟨hle, hbelow, habove⟩ := bisect_left_spec lapPct pct hs
  have h1 : lapPct.getD (bisect_left lapPct pct - 1) 0 < pct := hbelow _ (by omega)
  have h2 : pct ≤ lapPct.getD (bisect_left lapPct pct) 0 := habove _ (le_refl _) hn
  refine ⟨h1, h2, ?_, by linarith⟩
  intro he
  rw [he] at h1
  linarith

/-- C7: for every sorted reference series and channel data: querying
`ref_at_pct` at a lap-fraction equal to a stored sample's lap-fraction
returns that sample's channel value exactly (the sample found at the
bisect position, whose lap-fraction equals the query); querying below
the smallest stored lap-fraction returns the first sample's value
unchanged, and above the largest returns the last sample's value
unchanged (clamping, no extrapolation). -/
theorem c7_ref_at_pct_exact (lapPct data : List ℚ) (pct : ℚ) (hs : lapPct.Sorted (· ≤ ·)) :
    (∀ i, i < lapPct.length → lapPct.getD i 0 = pct →
      ∃ j, j < lapPct.length ∧ lapPct.getD j 0 = pct ∧
        ref_at_pct lapPct data pct = data.getD j 0)
    ∧ (0 < lapPct.length → pct < lapPct.getD 0 0 →
        ref_at_pct lapPct data pct = data.getD 0 0)
    ∧ (0 < lapPct.length → lapPct.getD (lapPct.length - 1) 0 < pct →
        ref_at_pct lapPct data pct = data.getD (data.length - 1) 0) := by
  obtain ⟨hle, hbelow, habove⟩ := bisect_left_spec lapPct pct hs
  have hemp : ∀ h0 : 0 < lapPct.length, ¬ lapPct.isEmpty = true := by
    intro h0 he
    rw [List.isEmpty_iff] at he
    rw [he] at h0
    simp at h0
  refine ⟨?_, ?_, ?_⟩
  · intro i hi hieq
    have hri : bisect_left lapPct pct ≤ i := by
      by_contra hgt
      push_neg at hgt
      have := hbelow i hgt
      rw [hieq] at this
      linarith
    have hrlen : bisect_left lapPct pct < lapPct.length := lt_of_le_of_lt hri hi
    have hxr : lapPct.getD (bisect_left lapPct pct) 0 = pct := by
      have hge := habove (bisect_left lapPct pct) (le_refl _) hrlen
      have hle2 := sorted_getD_mono lapPct hs (bisect_left lapPct pct) i hri hi
      rw [hieq] at hle2
      exact le_antisymm hle2 hge
    refine ⟨bisect_left lapPct pct, hrlen, hxr, ?_⟩
    unfold ref_at_pct
    rw [if_neg (hemp (by omega))]
    rcases Nat.eq_zero_or_pos (bisect_left lapPct pct) with hr0 | hrpos
    · rw [hr0]
      simp
    · rw [if_neg (by omega : ¬ bisect_left lapPct pct = 0),
        if_neg (by omega : ¬ lapPct.length ≤ bisect_left lapPct pct)]
      have hb : lapPct.getD (bisect_left lapPct pct - 1) 0 < pct := hbelow _ (by omega)
      rw [hxr]
      rw [if_neg (by intro he; linarith :
        ¬ pct = lapPct.getD (bisect_left lapPct pct - 1) 0)]
      rw [div_self (sub_ne_zero.mpr (by intro he2; linarith))]
      ring
  · intro h0 hlt
    have hr0 : bisect_left lapPct pct = 0 := by
      by_contra hne
      have := hbelow 0 (by omega)
      have hm := sorted_getD_mono lapPct hs 0 0 (le_refl _) h0
      linarith
    unfold ref_at_pct
    rw [if_neg (hemp h0), hr0]
    simp
  · intro h0 hlt
    have hrn : bisect_left lapPct pct = lapPct.length := by
      rcases Nat.lt_or_ge (bisect_left lapPct pct) lapPct.length with hlt2 | hge
      · have h2 := habove _ (le_refl _) hlt2
        have h3 := sorted_getD_mono lapPct hs (bisect_left lapPct pct)
          (lapPct.length - 1) (by omega) (by omega)
        linarith
      · omega
    unfold ref_at_pct
    rw [if_neg (hemp h0)]
    rw [if_neg (by omega : ¬ bisect_left lapPct pct = 0),
      if_pos (by omega : lapPct.length ≤ bisect_left lapPct pct)]


/-- C10 witness: the bracketing theorem applied to the sorted series
`[0, 1/2, 1/2, 1]` (with a duplicated sample) and query fraction 3/4. -/
theorem c10_witness :
    ([0, 1/2, 1/2, 1] : List ℚ).getD (bisect_left [0, 1/2, 1/2, 1] (3/4) - 1) 0 < 3/4
    ∧ (3/4 : ℚ) ≤ ([0, 1/2, 1/2, 1] : List ℚ).getD (bisect_left [0, 1/2, 1/2, 1] (3/4)) 0
    ∧ ([0, 1/2, 1/2, 1] : List ℚ).getD (bisect_left [0, 1/2, 1/2, 1] (3/4) - 1) 0 ≠
      ([0, 1/2, 1/2, 1] : List ℚ).getD (bisect_left [0, 1/2, 1/2, 1] (3/4)) 0
    ∧ 0 < ([0, 1/2, 1/2, 1] : List ℚ).getD (bisect_left [0, 1/2, 1/2, 1] (3/4)) 0 -
      ([0, 1/2, 1/2, 1] : List ℚ).getD (bisect_left [0, 1/2, 1/2, 1] (3/4) - 1) 0 :=
  c10_no_division_by_zero [0, 1/2, 1/2, 1] (3/4)
    (by with_unfolding_all decide) (by with_unfolding_all decide)
    (by with_unfolding_all decide)

/-- C7 witness: the interpolation theorem applied to the series
`[0, 1/2, 1]` with channel data `[10, 20, 30]`, at an exact sample
fraction (1/2), below the range (-1) and above the range (2). -/
theorem c7_witness :
    (∃ j, j < ([0, 1/2, 1] : List ℚ).length ∧ ([0, 1/2, 1] : List ℚ).getD j 0 = 1/2 ∧
      ref_at_pct [0, 1/2, 1] [10, 20, 30] (1/2) = ([10, 20, 30] : List ℚ).getD j 0)
    ∧ ref_at_pct [0, 1/2, 1] [10, 20, 30] (-1) = ([10, 20, 30] : List ℚ).getD 0 0
    ∧ ref_at_pct [0, 1/2, 1] [10, 20, 30] 2 =
      ([10, 20, 30] : List ℚ).getD (([10, 20, 30] : List ℚ).length - 1) 0 :=
  ⟨(c7_ref_at_pct_exact [0, 1/2, 1] [10, 20, 30] (1/2)
      (by with_unfolding_all decide)).1 1 (by decide) (by with_unfolding_all decide),
   (c7_ref_at_pct_exact [0, 1/2, 1] [10, 20, 30] (-1)
      (by with_unfolding_all decide)).2.1 (by decide) (by with_unfolding_all decide),
   (c7_ref_at_pct_exact [0, 1/2, 1] [10, 20, 30] 2
      (by with_unfolding_all decide)).2.2 (by decide) (by with_unfolding_all decide)⟩
